import Mathlib

/-!
Verification of src/fluid/PaddleCV/human_pose_estimation/train.py.

Shallow embedding: numpy float32/float64 values are modelled as rationals
(ℚ), numpy arrays as nested lists, and Python integers as ℕ.  The heatmap
batch [N, K, H, W] becomes List (List (List (List ℚ))), indexed
batch-sample, joint, row, column (row-major, as numpy stores it).
-/

/-- np.amax over a flattened 1-D array (axis-2 reduction of the reshaped
heatmaps in get_max_preds).  numpy errors on an empty array; we return 0
there, and every theorem about it only uses nonempty inputs. -/
def np_amax : List ℚ → ℚ
  | [] => 0
  | [x] => x
  | x :: y :: t => max x (np_amax (y :: t))

/-- np.argmax over a flattened 1-D array: index of the first occurrence of
the maximum, numpy's documented tie-breaking convention. -/
def np_argmax : List ℚ → ℕ
  | [] => 0
  | [_] => 0
  | x :: y :: t => if np_amax (y :: t) ≤ x then 0 else np_argmax (y :: t) + 1

/-- np.min over a flattened array (used by save_batch_heatmaps). -/
def np_amin : List ℚ → ℚ
  | [] => 0
  | [x] => x
  | x :: y :: t => min x (np_amin (y :: t))

/-- The body of get_max_preds for one joint's H×W map m (train.py lines
235-250): flatten row-major, take argmax index and max value, decode
x = idx mod width, y = floor(idx / width), and multiply the coordinates by
the mask (maxval > 0), keeping maxval as the confidence. -/
def get_max_pred_joint (width : ℕ) (m : List (List ℚ)) : (ℚ × ℚ) × ℚ :=
  let flat := m.flatten
  let idx := np_argmax flat
  let maxval := np_amax flat
  let mask : ℚ := if 0 < maxval then 1 else 0
  ((((idx % width : ℕ) : ℚ) * mask, ((idx / width : ℕ) : ℚ) * mask), maxval)

/-- get_max_preds (train.py lines 223-251) on a batch [N, K, H, W]:
the vectorised numpy code applies the per-joint computation independently
to every (sample, joint) pair; width is batch_heatmaps.shape[3]. -/
def get_max_preds (width : ℕ) (bh : List (List (List (List ℚ)))) :
    List (List ((ℚ × ℚ) × ℚ)) :=
  bh.map (fun joints => joints.map (get_max_pred_joint width))

theorem le_np_amax : ∀ (l : List ℚ), ∀ a ∈ l, a ≤ np_amax l := by
  intro l
  induction l with
  | nil => intro a ha; cases ha
  | cons x t IH =>
    intro a ha
    cases t with
    | nil =>
      rcases List.mem_singleton.mp ha with rfl
      simp [np_amax]
    | cons y t' =>
      rcases List.mem_cons.mp ha with rfl | h
      · exact le_max_left _ _
      · exact le_trans (IH a h) (le_max_right _ _)

theorem np_amax_mem : ∀ (l : List ℚ), l ≠ [] → np_amax l ∈ l := by
  intro l
  induction l with
  | nil => intro h; exact absurd rfl h
  | cons x t IH =>
    intro _
    cases t with
    | nil => simp [np_amax]
    | cons y t' =>
      show max x (np_amax (y :: t')) ∈ x :: y :: t'
      rcases max_cases x (np_amax (y :: t')) with ⟨hm, _⟩ | ⟨hm, _⟩
      · rw [hm]; exact List.mem_cons_self _ _
      · rw [hm]; exact List.mem_cons_of_mem _ (IH (by simp))

theorem np_argmax_lt_length : ∀ (l : List ℚ), l ≠ [] → np_argmax l < l.length := by
  intro l
  induction l with
  | nil => intro h; exact absurd rfl h
  | cons x t IH =>
    intro _
    cases t with
    | nil => simp [np_argmax]
    | cons y t' =>
      show (if np_amax (y :: t') ≤ x then 0 else np_argmax (y :: t') + 1) <
        (x :: y :: t').length
      split
      · simp
      · have := IH (by simp)
        simpa [Nat.succ_lt_succ_iff] using this

theorem getElem_np_argmax : ∀ (l : List ℚ), l ≠ [] →
    l[np_argmax l]? = some (np_amax l) := by
  intro l
  induction l with
  | nil => intro h; exact absurd rfl h
  | cons x t IH =>
    intro _
    cases t with
    | nil => simp [np_argmax, np_amax]
    | cons y t' =>
      show (x :: y :: t')[if np_amax (y :: t') ≤ x then 0 else np_argmax (y :: t') + 1]? =
        some (max x (np_amax (y :: t')))
      split
      · rename_i h
        simp [max_eq_left h]
      · rename_i h
        have hx : x ≤ np_amax (y :: t') := le_of_lt (not_le.mp h)
        rw [max_eq_right hx]
        simpa using IH (by simp)

theorem np_argmax_first : ∀ (l : List ℚ), ∀ j < np_argmax l, ∀ a : ℚ,
    l[j]? = some a → a < np_amax l := by
  intro l
  induction l with
  | nil => intro j hj; simp [np_argmax] at hj
  | cons x t IH =>
    intro j hj a ha
    cases t with
    | nil => simp [np_argmax] at hj
    | cons y t' =>
      by_cases h : np_amax (y :: t') ≤ x
      · rw [show np_argmax (x :: y :: t') =
          (if np_amax (y :: t') ≤ x then 0 else np_argmax (y :: t') + 1) from rfl,
          if_pos h] at hj
        exact absurd hj (Nat.not_lt_zero _)
      · rw [show np_argmax (x :: y :: t') =
          (if np_amax (y :: t') ≤ x then 0 else np_argmax (y :: t') + 1) from rfl,
          if_neg h] at hj
        have hx : x < np_amax (y :: t') := not_le.mp h
        have hmax : np_amax (x :: y :: t') = np_amax (y :: t') :=
          max_eq_right (le_of_lt hx)
        rw [hmax]
        cases j with
        | zero =>
          simp only [List.getElem?_cons_zero, Option.some.injEq] at ha
          rw [← ha]; exact hx
        | succ j' =>
          simp only [List.getElem?_cons_succ] at ha
          exact IH j' (Nat.lt_of_succ_lt_succ hj) a ha

/-- If the list has value v at index i and a strictly smaller value
everywhere else, then v is the maximum and i is the argmax. -/
theorem np_amax_argmax_of_strict (l : List ℚ) (i : ℕ) (v : ℚ)
    (hi : i < l.length) (hv : l.getD i 0 = v)
    (hstrict : ∀ j, j < l.length → j ≠ i → l.getD j 0 < v) :
    np_amax l = v ∧ np_argmax l = i := by
  have hne : l ≠ [] := by
    intro h; rw [h] at hi; exact absurd hi (by simp)
  have hvi : l[i]? = some v := by
    rw [List.getElem?_eq_getElem hi]
    rw [List.getD_eq_getElem?_getD, List.getElem?_eq_getElem hi] at hv
    simpa using hv
  have hvmem : v ∈ l := List.mem_iff_getElem?.mpr ⟨i, hvi⟩
  have hle : v ≤ np_amax l := le_np_amax l v hvmem
  have hmem : np_amax l ∈ l := np_amax_mem l hne
  rcases List.mem_iff_getElem.mp hmem with ⟨j, hj, hgj⟩
  have hamax : np_amax l = v := by
    by_cases hji : j = i
    · subst hji
      rw [List.getElem?_eq_getElem hj] at hvi
      simpa [hgj] using hvi
    · have := hstrict j hj hji
      rw [List.getD_eq_getElem?_getD, List.getElem?_eq_getElem hj] at this
      simp only [Option.getD_some] at this
      rw [hgj] at this
      exact absurd hle (not_le.mpr this)
  refine ⟨hamax, ?_⟩
  have hag : l[np_argmax l]? = some (np_amax l) := getElem_np_argmax l hne
  have halt : np_argmax l < l.length := np_argmax_lt_length l hne
  by_contra hne2
  have := hstrict (np_argmax l) halt hne2
  rw [List.getD_eq_getElem?_getD, hag] at this
  simp only [Option.getD_some, hamax] at this
  exact lt_irrefl v this

/-- Indexing a (sample, joint) pair through the mapped batch. -/
theorem get_max_preds_index (width : ℕ) (bh : List (List (List (List ℚ))))
    (n k : ℕ) (joints : List (List (List ℚ))) (m : List (List ℚ))
    (hn : bh[n]? = some joints) (hk : joints[k]? = some m) :
    ∃ row, (get_max_preds width bh)[n]? = some row ∧
      row[k]? = some (get_max_pred_joint width m) := by
  refine ⟨joints.map (get_max_pred_joint width), ?_, ?_⟩
  · simp [get_max_preds, hn]
  · simp [hk]

theorem all_zero_np_amax : ∀ (l : List ℚ), (∀ a ∈ l, a = 0) → np_amax l = 0 := by
  intro l
  induction l with
  | nil => intro _; rfl
  | cons x t IH =>
    intro h
    cases t with
    | nil => exact h x (List.mem_singleton.mpr rfl)
    | cons y t' =>
      show max x (np_amax (y :: t')) = 0
      rw [h x (List.mem_cons_self _ _),
          IH (fun a ha => h a (List.mem_cons_of_mem _ ha)), max_self]

theorem flatten_length_uniform : ∀ (m : List (List ℚ)) (W : ℕ),
    (∀ row ∈ m, row.length = W) → m.flatten.length = m.length * W := by
  intro m W
  induction m with
  | nil => intro _; simp
  | cons r t IH =>
    intro h
    simp only [List.flatten_cons, List.length_append, List.length_cons]
    rw [IH (fun row hr => h row (List.mem_cons_of_mem _ hr)),
        h r (List.mem_cons_self _ _)]
    ring

/-- Claim C1: for a 4-D heatmap batch in which joint (n,k)'s H×W map has a
single strict maximum v > 0 at row-major flat index i, get_max_preds
returns for that joint the confidence v and the coordinates
x = i mod W and y = floor(i / W). -/
theorem get_max_preds_strict_max (bh : List (List (List (List ℚ))))
    (W n k : ℕ) (joints : List (List (List ℚ))) (m : List (List ℚ))
    (i : ℕ) (v : ℚ)
    (hn : bh[n]? = some joints) (hk : joints[k]? = some m)
    (hi : i < m.flatten.length) (hv : m.flatten.getD i 0 = v) (hpos : 0 < v)
    (hstrict : ∀ j, j < m.flatten.length → j ≠ i → m.flatten.getD j 0 < v) :
    ∃ row, (get_max_preds W bh)[n]? = some row ∧
      row[k]? = some ((((i % W : ℕ) : ℚ), ((i / W : ℕ) : ℚ)), v) := by
  obtain ⟨hamax, hargmax⟩ := np_amax_argmax_of_strict m.flatten i v hi hv hstrict
  obtain ⟨row, hrow, hrk⟩ := get_max_preds_index W bh n k joints m hn hk
  refine ⟨row, hrow, ?_⟩
  rw [hrk]
  unfold get_max_pred_joint
  simp only [hamax, hargmax, if_pos hpos, mul_one]

/-- Witness for C1: a 1×1×2×2 batch with unique maximum 1 at flat index 1,
decoded to x = 1, y = 0 with confidence 1. -/
theorem get_max_preds_strict_max_witness :
    ∃ row, (get_max_preds 2 [[[[0, 1], [0, 0]]]])[0]? = some row ∧
      row[0]? = some ((((1 % 2 : ℕ) : ℚ), ((1 / 2 : ℕ) : ℚ)), (1 : ℚ)) :=
  get_max_preds_strict_max [[[[0, 1], [0, 0]]]] 2 0 0 [[[0, 1], [0, 0]]]
    [[0, 1], [0, 0]] 1 1 (by decide) (by decide) (by decide) (by decide)
    (by decide) (by decide)

/-- Claim C4: when a joint's maximum heatmap value is ≤ 0, get_max_preds
masks its coordinates to (0,0) while still returning the maximum value as
the confidence; and for an all-zero map the maximum value is 0. -/
theorem get_max_preds_nonpos_masked (bh : List (List (List (List ℚ))))
    (W n k : ℕ) (joints : List (List (List ℚ))) (m : List (List ℚ))
    (hn : bh[n]? = some joints) (hk : joints[k]? = some m)
    (hle : np_amax m.flatten ≤ 0) :
    (∃ row, (get_max_preds W bh)[n]? = some row ∧
      row[k]? = some (((0 : ℚ), (0 : ℚ)), np_amax m.flatten)) ∧
    ((∀ a ∈ m.flatten, a = 0) → np_amax m.flatten = 0) := by
  constructor
  · obtain ⟨row, hrow, hrk⟩ := get_max_preds_index W bh n k joints m hn hk
    refine ⟨row, hrow, ?_⟩
    rw [hrk]
    unfold get_max_pred_joint
    simp only [if_neg (not_lt.mpr hle), mul_zero]
  · exact all_zero_np_amax m.flatten

/-- Witness for C4: the all-zero 1×1×2×2 batch decodes to coordinates
(0,0) with confidence np_amax = 0 for its joint. -/
theorem get_max_preds_nonpos_masked_witness :
    (∃ row, (get_max_preds 2 [[[[0, 0], [0, 0]]]])[0]? = some row ∧
      row[0]? = some (((0 : ℚ), (0 : ℚ)),
        np_amax ([[0, 0], [0, 0]] : List (List ℚ)).flatten)) ∧
    ((∀ a ∈ ([[0, 0], [0, 0]] : List (List ℚ)).flatten, a = 0) →
      np_amax ([[0, 0], [0, 0]] : List (List ℚ)).flatten = 0) :=
  get_max_preds_nonpos_masked [[[[0, 0], [0, 0]]]] 2 0 0 [[[0, 0], [0, 0]]]
    [[0, 0], [0, 0]] (by decide) (by decide) (by decide)

/-- Claim C5: for a heatmap batch whose joint (n,k) map has H ≥ 1 rows,
all of length W ≥ 1, the decoded coordinates satisfy 0 ≤ x < W and
0 ≤ y < H. -/
theorem get_max_preds_coords_in_range (bh : List (List (List (List ℚ))))
    (W n k : ℕ) (joints : List (List (List ℚ))) (m : List (List ℚ))
    (hn : bh[n]? = some joints) (hk : joints[k]? = some m)
    (hW : ∀ row ∈ m, row.length = W)
    (hH1 : 1 ≤ m.length) (hW1 : 1 ≤ W) :
    ∃ row x y c, (get_max_preds W bh)[n]? = some row ∧
      row[k]? = some ((x, y), c) ∧
      0 ≤ x ∧ x < (W : ℚ) ∧ 0 ≤ y ∧ y < (m.length : ℚ) := by
  obtain ⟨row, hrow, hrk⟩ := get_max_preds_index W bh n k joints m hn hk
  have hlen : m.flatten.length = m.length * W := flatten_length_uniform m W hW
  have hpos : 0 < m.flatten.length := by
    rw [hlen]; exact Nat.mul_pos hH1 hW1
  have hne : m.flatten ≠ [] := List.length_pos.mp hpos
  have halt : np_argmax m.flatten < m.length * W := by
    rw [← hlen]; exact np_argmax_lt_length m.flatten hne
  refine ⟨row,
    ((np_argmax m.flatten % W : ℕ) : ℚ) *
      (if 0 < np_amax m.flatten then 1 else 0),
    ((np_argmax m.flatten / W : ℕ) : ℚ) *
      (if 0 < np_amax m.flatten then 1 else 0),
    np_amax m.flatten, hrow, by rw [hrk]; rfl, ?_, ?_, ?_, ?_⟩
  · split_ifs <;> simp
  · split_ifs with h
    · rw [mul_one]
      exact_mod_cast Nat.mod_lt _ hW1
    · rw [mul_zero]
      exact_mod_cast hW1
  · split_ifs <;> simp
  · split_ifs with h
    · rw [mul_one]
      exact_mod_cast (Nat.div_lt_iff_lt_mul hW1).mpr halt
    · rw [mul_zero]
      exact_mod_cast hH1

/-- Witness for C5: a 1×1×2×2 batch has coordinates inside [0,2)×[0,2). -/
theorem get_max_preds_coords_in_range_witness :
    ∃ row x y c, (get_max_preds 2 [[[[1, 2], [3, 4]]]])[0]? = some row ∧
      row[0]? = some ((x, y), c) ∧
      0 ≤ x ∧ x < (2 : ℚ) ∧ 0 ≤ y ∧
      y < ((([[1, 2], [3, 4]] : List (List ℚ)).length : ℕ) : ℚ) :=
  get_max_preds_coords_in_range [[[[1, 2], [3, 4]]]] 2 0 0 [[[1, 2], [3, 4]]]
    [[1, 2], [3, 4]] (by decide) (by decide) (by decide) (by decide) (by decide)

/-- Claim C6: when a joint's map attains its maximum at more than one
position, get_max_preds decodes the first occurrence in row-major
flattening order: the returned coordinates come from an index i that
holds the maximum while every smaller index holds a strictly smaller
value. -/
theorem get_max_preds_tie_first (bh : List (List (List (List ℚ))))
    (W n k : ℕ) (joints : List (List (List ℚ))) (m : List (List ℚ))
    (i₁ i₂ : ℕ) (v : ℚ)
    (hn : bh[n]? = some joints) (hk : joints[k]? = some m)
    (_hne12 : i₁ ≠ i₂) (h1l : i₁ < m.flatten.length)
    (_h2l : i₂ < m.flatten.length)
    (_h1 : m.flatten.getD i₁ 0 = v) (_h2 : m.flatten.getD i₂ 0 = v)
    (hmax : np_amax m.flatten = v) (hpos : 0 < v) :
    ∃ row i, (get_max_preds W bh)[n]? = some row ∧
      row[k]? = some ((((i % W : ℕ) : ℚ), ((i / W : ℕ) : ℚ)), v) ∧
      i < m.flatten.length ∧ m.flatten.getD i 0 = v ∧
      ∀ j, j < i → m.flatten.getD j 0 < v := by
  obtain ⟨row, hrow, hrk⟩ := get_max_preds_index W bh n k joints m hn hk
  have hne : m.flatten ≠ [] := List.length_pos.mp (Nat.lt_of_le_of_lt (Nat.zero_le _) h1l)
  have hag : m.flatten[np_argmax m.flatten]? = some (np_amax m.flatten) :=
    getElem_np_argmax m.flatten hne
  have halt : np_argmax m.flatten < m.flatten.length :=
    np_argmax_lt_length m.flatten hne
  refine ⟨row, np_argmax m.flatten, hrow, ?_, halt, ?_, ?_⟩
  · rw [hrk]
    unfold get_max_pred_joint
    simp only [hmax, if_pos hpos, mul_one]
  · rw [List.getD_eq_getElem?_getD, hag, Option.getD_some, hmax]
  · intro j hj
    have hjl : j < m.flatten.length := Nat.lt_trans hj halt
    have := np_argmax_first m.flatten j hj (m.flatten.getD j 0)
      (by rw [List.getElem?_eq_getElem hjl, List.getD_eq_getElem?_getD,
              List.getElem?_eq_getElem hjl, Option.getD_some])
    rw [hmax] at this
    exact this

/-- Witness for C6: the map [[5,5]] attains its maximum 5 at both flat
indices; the decoder picks index 0, the first occurrence. -/
theorem get_max_preds_tie_first_witness :
    ∃ row i, (get_max_preds 2 [[[[5, 5]]]])[0]? = some row ∧
      row[0]? = some ((((i % 2 : ℕ) : ℚ), ((i / 2 : ℕ) : ℚ)), (5 : ℚ)) ∧
      i < ([[5, 5]] : List (List ℚ)).flatten.length ∧
      ([[5, 5]] : List (List ℚ)).flatten.getD i 0 = 5 ∧
      ∀ j, j < i → ([[5, 5]] : List (List ℚ)).flatten.getD j 0 < 5 :=
  get_max_preds_tie_first [[[[5, 5]]]] 2 0 0 [[[5, 5]]] [[5, 5]] 0 1 5
    (by decide) (by decide) (by decide) (by decide) (by decide) (by decide)
    (by decide) (by decide) (by decide)

/-- Result of optimizer_setting (train.py lines 47-76), keeping the data
that parameterises the returned paddle optimizer object. -/
inductive OptimizerConfig where
  | adam (boundaries : List ℕ) (values : List ℚ)
  | momentum (learning_rate momentum_coeff l2_decay : ℚ)
deriving DecidableEq

/-- train.py line 55: step = int(total_images / batch_size + 1).  For
positive Python ints this is floor(total_images / batch_size) + 1 under
both Python 2 (floor division) and Python 3 (true division followed by
truncation of a positive value), so Nat division models it exactly. -/
def piecewise_step (total_images batch_size : ℕ) : ℕ :=
  total_images / batch_size + 1

/-- train.py line 57: the hardcoded LR-drop epochs. -/
def piecewise_epochs : List ℕ := [91, 121]

/-- optimizer_setting (train.py lines 47-76) with lr_drop_ratio = 0.1:
under "piecewise_decay" it builds boundaries step*e for the hardcoded
epochs and values base_lr * 0.1^i for i in range(len(bd)+1) feeding
AdamOptimizer; any other strategy yields Momentum(lr, 0.9, L2Decay 5e-4). -/
def optimizer_setting (lr_strategy : String) (total_images batch_size : ℕ)
    (base_lr : ℚ) : OptimizerConfig :=
  if lr_strategy = "piecewise_decay" then
    let step := piecewise_step total_images batch_size
    let bd := piecewise_epochs.map (fun e => step * e)
    let lr := (List.range (bd.length + 1)).map
      (fun i => base_lr * (1 / 10 : ℚ) ^ i)
    OptimizerConfig.adam bd lr
  else
    OptimizerConfig.momentum base_lr (9 / 10) (5 / 10000)

/-- Claim C2 (counterexample): with total_images = 144406 and
batch_size = 32 the code computes step = floor(144406/32) + 1 = 4513, not
4514, so the claimed boundaries [410774, 546194] are not produced either. -/
theorem optimizer_setting_claimed_numbers_false :
    ¬ (piecewise_step 144406 32 = 4514 ∧
       optimizer_setting "piecewise_decay" 144406 32 (1 / 1000) =
         OptimizerConfig.adam [410774, 546194]
           [1 / 1000, 1 / 1000 * (1 / 10), 1 / 1000 * (1 / 100)]) := by
  decide

/-- Claim C2 (amended): with total_images = 144406 and batch_size = 32 the
piecewise strategy computes step = 4513 = floor(144406/32) + 1, boundaries
[410683, 546073] = step * [91, 121], and learning-rate value sequence
[lr, lr*0.1, lr*0.01]. -/
theorem optimizer_setting_piecewise_numbers (base_lr : ℚ) :
    piecewise_step 144406 32 = 4513 ∧
    optimizer_setting "piecewise_decay" 144406 32 base_lr =
      OptimizerConfig.adam [410683, 546073]
        [base_lr, base_lr * (1 / 10), base_lr * (1 / 100)] := by
  refine ⟨rfl, ?_⟩
  unfold optimizer_setting
  rw [if_pos rfl]
  norm_num [piecewise_step, piecewise_epochs, List.range_succ]

/-- Witness for C2 (amended) at the default base learning rate 0.001. -/
theorem optimizer_setting_piecewise_numbers_witness :
    piecewise_step 144406 32 = 4513 ∧
    optimizer_setting "piecewise_decay" 144406 32 (1 / 1000) =
      OptimizerConfig.adam [410683, 546073]
        [1 / 1000, 1 / 1000 * (1 / 10), 1 / 1000 * (1 / 100)] :=
  optimizer_setting_piecewise_numbers (1 / 1000)

/-- Dimension and keypoint configuration chosen by the dataset dispatch in
train (train.py lines 79-92). -/
structure DatasetConfig where
  image_size : List ℕ
  heatmap_size : List ℕ
  kp_dim : ℕ
  total_images : ℕ
deriving DecidableEq

/-- The dataset dispatch at the top of train (train.py lines 79-92):
"coco" and "mpii" select fixed dimensions; anything else raises
ValueError with the formatted message. -/
def resolve_dataset (dataset : String) : Except String DatasetConfig :=
  if dataset = "coco" then
    Except.ok ⟨[288, 384], [72, 96], 17, 144406⟩
  else if dataset = "mpii" then
    Except.ok ⟨[384, 384], [96, 96], 16, 22246⟩
  else
    Except.error ("The dataset " ++ dataset ++ " is not supported yet.")

theorem resolve_dataset_unsupported (s : String)
    (h1 : s ≠ "coco") (h2 : s ≠ "mpii") :
    resolve_dataset s =
      Except.error ("The dataset " ++ s ++ " is not supported yet.") := by
  unfold resolve_dataset
  rw [if_neg h1, if_neg h2]

/-- Claim C3: dataset "coco" resolves kp_dim = 17 and IMAGE_SIZE
[288, 384]; "mpii" resolves kp_dim = 16 and IMAGE_SIZE [384, 384]; every
other dataset name raises a ValueError. -/
theorem train_dataset_resolution :
    resolve_dataset "coco" = Except.ok ⟨[288, 384], [72, 96], 17, 144406⟩ ∧
    resolve_dataset "mpii" = Except.ok ⟨[384, 384], [96, 96], 16, 22246⟩ ∧
    ∀ s : String, s ≠ "coco" → s ≠ "mpii" →
      resolve_dataset s =
        Except.error ("The dataset " ++ s ++ " is not supported yet.") :=
  ⟨rfl, rfl, resolve_dataset_unsupported⟩

/-- Witness for C3 at the unsupported name "imagenet". -/
theorem train_dataset_resolution_witness :
    resolve_dataset "coco" = Except.ok ⟨[288, 384], [72, 96], 17, 144406⟩ ∧
    resolve_dataset "mpii" = Except.ok ⟨[384, 384], [96, 96], 16, 22246⟩ ∧
    resolve_dataset "imagenet" =
      Except.error ("The dataset " ++ "imagenet" ++ " is not supported yet.") :=
  ⟨train_dataset_resolution.1, train_dataset_resolution.2.1,
   train_dataset_resolution.2.2 "imagenet" (by decide) (by decide)⟩

/-- Startup actions of train in program order (train.py lines 78-146). -/
inductive TrainEvent where
  | printArguments
  | buildModel
  | optimizerSetting
  | memoryOptimize
  | loadPretrained
  | loadCheckpoint
  | trainLoop
  | raiseValueError (msg : String)
deriving DecidableEq

/-- Control flow of train (train.py lines 78-146): the dataset dispatch
runs first; an unsupported name raises ValueError and nothing further
executes; otherwise the startup steps run in order, with optimizer_setting
called at line 117. -/
def train_startup (dataset : String) : List TrainEvent :=
  match resolve_dataset dataset with
  | Except.error msg => [TrainEvent.raiseValueError msg]
  | Except.ok _ =>
      [TrainEvent.printArguments, TrainEvent.buildModel,
       TrainEvent.optimizerSetting, TrainEvent.memoryOptimize,
       TrainEvent.loadPretrained, TrainEvent.loadCheckpoint,
       TrainEvent.trainLoop]

/-- Claim C7: for every unsupported dataset name, train raises the
configuration error and no call to optimizer_setting occurs. -/
theorem train_unsupported_dataset_no_optimizer (s : String)
    (h1 : s ≠ "coco") (h2 : s ≠ "mpii") :
    train_startup s =
      [TrainEvent.raiseValueError
        ("The dataset " ++ s ++ " is not supported yet.")] ∧
    TrainEvent.optimizerSetting ∉ train_startup s := by
  have h := resolve_dataset_unsupported s h1 h2
  constructor
  · unfold train_startup
    rw [h]
  · unfold train_startup
    rw [h]
    simp

/-- Witness for C7 at the unsupported name "imagenet". -/
theorem train_unsupported_dataset_no_optimizer_witness :
    train_startup "imagenet" =
      [TrainEvent.raiseValueError
        ("The dataset " ++ "imagenet" ++ " is not supported yet.")] ∧
    TrainEvent.optimizerSetting ∉ train_startup "imagenet" :=
  train_unsupported_dataset_no_optimizer "imagenet" (by decide) (by decide)

/-- A height × width × channels image as nested lists, the shape handled
by save_batch_heatmaps (train.py lines 168-221). -/
abbrev Image3 := List (List (List ℚ))

/-- np.zeros((r, c, ch)) (train.py lines 184-187). -/
def np_zeros3 (r c ch : ℕ) : Image3 :=
  List.replicate r (List.replicate c (List.replicate ch 0))

/-- numpy slice assignment grid[r0:r1, c0:c1, :] = blk: every position in
the region takes the corresponding block value, everything else is kept. -/
def setRegion (g : Image3) (r0 r1 c0 c1 : ℕ) (blk : Image3) : Image3 :=
  (List.range g.length).map (fun r =>
    if r0 ≤ r ∧ r < r1 then
      (List.range (g.getD r []).length).map (fun c =>
        if c0 ≤ c ∧ c < c1 then
          (List.range ((g.getD r []).getD c []).length).map (fun ch =>
            ((blk.getD (r - r0) []).getD (c - c0) []).getD ch
              (((g.getD r []).getD c []).getD ch 0))
        else (g.getD r []).getD c [])
    else g.getD r [])

/-- A nested list is a well-formed r × c × ch array. -/
def Shape3 (g : Image3) (r c ch : ℕ) : Prop :=
  g.length = r ∧ ∀ row ∈ g, row.length = c ∧ ∀ px ∈ row, px.length = ch

theorem getD_mem {α : Type} (l : List α) (i : ℕ) (d : α)
    (h : i < l.length) : l.getD i d ∈ l := by
  rw [List.getD_eq_getElem?_getD, List.getElem?_eq_getElem h, Option.getD_some]
  exact List.getElem_mem h

theorem np_zeros3_shape (r c ch : ℕ) : Shape3 (np_zeros3 r c ch) r c ch := by
  refine ⟨by simp [np_zeros3], ?_⟩
  intro row hrow
  rw [List.eq_of_mem_replicate hrow]
  refine ⟨by simp, ?_⟩
  intro px hpx
  rw [List.eq_of_mem_replicate hpx]
  simp

theorem setRegion_shape (g : Image3) (r0 r1 c0 c1 : ℕ) (blk : Image3)
    (r c ch : ℕ) (hg : Shape3 g r c ch) :
    Shape3 (setRegion g r0 r1 c0 c1 blk) r c ch := by
  obtain ⟨hlen, hrows⟩ := hg
  constructor
  · simp [setRegion, hlen]
  · intro row hrow
    rw [setRegion] at hrow
    rcases List.mem_map.mp hrow with ⟨rr, hrr, rfl⟩
    have hrlt : rr < g.length := List.mem_range.mp hrr
    have hrowmem : g.getD rr [] ∈ g := getD_mem g rr [] hrlt
    obtain ⟨hrc, hpxs⟩ := hrows _ hrowmem
    by_cases hcond : r0 ≤ rr ∧ rr < r1
    · rw [if_pos hcond]
      refine ⟨by rw [List.length_map, List.length_range]; exact hrc, ?_⟩
      intro px hpx
      rcases List.mem_map.mp hpx with ⟨cc, hcc, rfl⟩
      have hclt : cc < (g.getD rr []).length := List.mem_range.mp hcc
      have hpxmem : (g.getD rr []).getD cc [] ∈ g.getD rr [] :=
        getD_mem _ cc [] hclt
      by_cases hcond2 : c0 ≤ cc ∧ cc < c1
      · rw [if_pos hcond2]
        rw [List.length_map, List.length_range]
        exact hpxs _ hpxmem
      · rw [if_neg hcond2]
        exact hpxs _ hpxmem
    · rw [if_neg hcond]
      exact ⟨hrc, hpxs⟩

theorem foldl_shape {α : Type} (f : Image3 → α → Image3) (l : List α)
    (g : Image3) (r c ch : ℕ) (h0 : Shape3 g r c ch)
    (hstep : ∀ g' a, Shape3 g' r c ch → Shape3 (f g' a) r c ch) :
    Shape3 (l.foldl f g) r c ch := by
  induction l generalizing g with
  | nil => exact h0
  | cons a t IH => exact IH _ (hstep g a h0)

/-- The grid construction of save_batch_heatmaps (train.py lines 181-219):
a zero grid of shape (batch_size*heatmap_height, (num_joints+1)*heatmap_width, 3)
receives, for every sample i, the blended heatmap block of joint j at rows
hh*i..hh*(i+1) and columns hw*(j+1)..hw*(j+2), then the resized input
image at columns 0..hw.  The cv2 products (resize, colour map, 0.7/0.3
blend, keypoint circles) are external collaborators, abstracted as the
block-producing functions resized and masked. -/
def save_batch_heatmaps_grid (batch_size num_joints hh hw : ℕ)
    (resized : ℕ → Image3) (masked : ℕ → ℕ → Image3) : Image3 :=
  (List.range batch_size).foldl (fun g i =>
    setRegion
      ((List.range num_joints).foldl (fun g2 j =>
        setRegion g2 (hh * i) (hh * (i + 1)) (hw * (j + 1)) (hw * (j + 2))
          (masked i j)) g)
      (hh * i) (hh * (i + 1)) 0 hw (resized i))
    (np_zeros3 (batch_size * hh) ((num_joints + 1) * hw) 3)

/-- Claim C8: for every batch [batch_size, num_joints, hh, hw] the grid
image produced by save_batch_heatmaps has dimensions exactly
(batch_size*hh, (num_joints+1)*hw, 3), whatever the externally produced
image blocks contain. -/
theorem save_batch_heatmaps_grid_shape (batch_size num_joints hh hw : ℕ)
    (resized : ℕ → Image3) (masked : ℕ → ℕ → Image3) :
    Shape3 (save_batch_heatmaps_grid batch_size num_joints hh hw resized masked)
      (batch_size * hh) ((num_joints + 1) * hw) 3 := by
  unfold save_batch_heatmaps_grid
  apply foldl_shape
  · exact np_zeros3_shape _ _ _
  · intro g' i hg'
    apply setRegion_shape
    apply foldl_shape
    · exact hg'
    · intro g2 j hg2
      exact setRegion_shape _ _ _ _ _ _ _ _ _ hg2

/-- Witness for C8: a 2-sample, 3-joint, 4×5 heatmap batch gives an
8 × 20 × 3 grid. -/
theorem save_batch_heatmaps_grid_shape_witness :
    Shape3 (save_batch_heatmaps_grid 2 3 4 5 (fun _ => []) (fun _ _ => []))
      (2 * 4) ((3 + 1) * 5) 3 :=
  save_batch_heatmaps_grid_shape 2 3 4 5 (fun _ => []) (fun _ _ => [])

/-- Observable side effects of one iteration of the inner batch loop. -/
inductive SideEffect where
  | logProgress (pass_id batch_id : ℕ)
  | writeImage (file_name : String)
deriving DecidableEq

/-- One iteration of the batch loop (train.py lines 147-160): the progress
line is always printed; save_batch_heatmaps writes the visualization image
exactly when batch_id % 10 == 0, always to the same fixed filename. -/
def train_batch_step (pass_id batch_id : ℕ) : List SideEffect :=
  [SideEffect.logProgress pass_id batch_id] ++
    (if batch_id % 10 = 0 then
      [SideEffect.writeImage "visualization@train.jpg"] else [])

/-- Claim C9: a visualization image is written in a batch step iff the
batch index is a multiple of 10, and every such write targets the single
fixed filename, so no step creates a second visualization file. -/
theorem train_step_visualization (pass_id batch_id : ℕ) :
    ((∃ f, SideEffect.writeImage f ∈ train_batch_step pass_id batch_id) ↔
      batch_id % 10 = 0) ∧
    ∀ f, SideEffect.writeImage f ∈ train_batch_step pass_id batch_id →
      f = "visualization@train.jpg" := by
  unfold train_batch_step
  by_cases h : batch_id % 10 = 0
  · rw [if_pos h]
    refine ⟨⟨fun _ => h, fun _ => ⟨"visualization@train.jpg", by simp⟩⟩, ?_⟩
    intro f hf
    rcases List.mem_append.mp hf with h1 | h2
    · exact absurd (List.mem_singleton.mp h1) (by simp)
    · exact SideEffect.writeImage.inj (List.mem_singleton.mp h2)
  · rw [if_neg h]
    constructor
    · constructor
      · rintro ⟨f, hf⟩
        simp at hf
      · intro hb
        exact absurd hb h
    · intro f hf
      simp at hf

/-- Witness for C9 at batch index 10 (a multiple of 10). -/
theorem train_step_visualization_witness :
    ((∃ f, SideEffect.writeImage f ∈ train_batch_step 0 10) ↔ 10 % 10 = 0) ∧
    ∀ f, SideEffect.writeImage f ∈ train_batch_step 0 10 →
      f = "visualization@train.jpg" :=
  train_step_visualization 0 10

theorem np_amin_le_np_amax : ∀ l : List ℚ, np_amin l ≤ np_amax l := by
  intro l
  cases l with
  | nil => exact le_refl 0
  | cons x t =>
    cases t with
    | nil => exact le_refl x
    | cons y t' =>
      show min x (np_amin (y :: t')) ≤ max x (np_amax (y :: t'))
      exact le_trans (min_le_left _ _) (le_max_left _ _)

/-- The denominator max - min + 1e-5 of the min-max normalization in
save_batch_heatmaps (train.py lines 174-179), over the flattened pixel
values of batch_image. -/
def normalize_denominator (pixels : List ℚ) : ℚ :=
  np_amax pixels - np_amin pixels + 1 / 100000

/-- batch_image = (batch_image - min) / (max - min + 1e-5), elementwise
(train.py lines 178-179). -/
def normalize_image (pixels : List ℚ) : List ℚ :=
  pixels.map (fun v => (v - np_amin pixels) / normalize_denominator pixels)

/-- Claim C10: the normalization denominator max - min + 1e-5 is strictly
positive for every input batch, in particular when the batch is constant
(max = min), so the normalization never divides by zero. -/
theorem normalize_denominator_pos (pixels : List ℚ) :
    0 < normalize_denominator pixels := by
  unfold normalize_denominator
  have h := np_amin_le_np_amax pixels
  linarith

/-- Witness for C10 on a constant batch, where max = min. -/
theorem normalize_denominator_pos_witness :
    0 < normalize_denominator [5, 5, 5] :=
  normalize_denominator_pos [5, 5, 5]
